/-
  A verification development for the `cached-function` memoizing cache layer.

  The JavaScript source (`src/index.js`) is shallowly embedded below:
  mutable global registries (WeakMaps) become explicit fields of an
  `Engine` state record, JavaScript values become the inductive `Val`
  (reference values carry an identity token, so identity-based equality of
  objects and structural equality of primitives are both the derived
  decidable equality), and the host environment (which values are
  callable, what each callable computes, how objects serialize, object
  members and property descriptors) is an explicit `World` parameter.
  Thrown errors become `Except` results, classified by the spec's error
  taxonomy.  Time is an explicit `now : Nat` argument (milliseconds).
-/
import Mathlib

set_option autoImplicit false
set_option synthInstance.maxSize 400

namespace CachedFn

/-- A JavaScript value.  Primitives compare structurally; composite
(reference) values — objects, arrays, functions — are represented by an
identity token `ref id`, so equality of two `ref`s is object identity. -/
inductive Val where
  | undef
  | null
  | bool (b : Bool)
  | num (n : Int)
  | str (s : String)
  | ref (id : Nat)
deriving DecidableEq, Repr

/-- The receiver (`this`) context of a call: `none` is the `noThis`
sentinel used when a call has no receiver, `some id` is a receiver
object's identity. -/
abbrev Ctx := Option Nat

/- ### Association-list plumbing (the embedding of Map / WeakMap) -/

/-- Lookup in an association list (models `Map.get` / `WeakMap.get`). -/
def alGet {α β : Type} [DecidableEq α] (l : List (α × β)) (k : α) : Option β :=
  (l.find? (fun p => decide (p.1 = k))).map (·.2)

/-- Insert or overwrite in an association list (models `Map.set`). -/
def alSet {α β : Type} [DecidableEq α] (l : List (α × β)) (k : α) (v : β) :
    List (α × β) :=
  (k, v) :: l.filter (fun p => !(decide (p.1 = k)))

/-- Remove a key from an association list (models `Map.delete`). -/
def alDel {α β : Type} [DecidableEq α] (l : List (α × β)) (k : α) :
    List (α × β) :=
  l.filter (fun p => !(decide (p.1 = k)))

/- ### Serialization and the key builder -/

/-- The opaque external serialization capability (`maybe-stringify`):
deterministic, string-valued.  Primitives serialize canonically (a model
of `JSON.stringify`); a reference value's serialization is given by the
world's content map `ser`, so two distinct references with identical
contents serialize identically. -/
def serializeVal (ser : Nat → String) : Val → String
  | .undef => "undefined"
  | .null => "null"
  | .bool b => toString b
  | .num n => toString n
  | .str s => "\"" ++ s ++ "\""
  | .ref i => ser i

/-- The `generateKey` function from `src/index.js` (lines 29-33): under strict
matching the key is the argument sequence itself; under loose matching
each argument is replaced by its serialized string form. -/
def generateKey (ser : Nat → String) (args : List Val)
    (strictArgMatch : Bool := true) : List Val :=
  if strictArgMatch then args
  else args.map (fun arg => .str (serializeVal ser arg))

/- ### The TTL store -/

/-- One stored result: the cached value and an optional absolute
expiration deadline (milliseconds). -/
structure CacheEntry where
  value : Val
  deadline : Option Nat
deriving DecidableEq, Repr

/-- Modelled from the spec: the per-context TTL store is realized in the
source by the external `ttlmap` and `multikey` packages (not part of
`src/`), so its behavior is taken from the spec's §4.2 contract: a
composite key (ordered sequence of parts, per-part equality) maps to a
value with an optional absolute deadline; `set` with a `ttl` stores
deadline = now + ttl; reads after the deadline behave as if the entry
does not exist and lazily remove the stale entry. -/
abbrev TTLStore := List (List Val × CacheEntry)

/-- Whether an entry's deadline has passed at time `now` (an entry with
no deadline never expires). -/
def entryExpired (now : Nat) : Option Nat → Bool
  | none => false
  | some d => decide (d ≤ now)

/-- Modelled from the spec: `has(key)` at time `now`.  Returns the
answer together with the store after lazy removal of the queried entry
when it is stale. -/
def TTLStore.hasAt (s : TTLStore) (now : Nat) (k : List Val) :
    Bool × TTLStore :=
  match alGet s k with
  | none => (false, s)
  | some e => if entryExpired now e.deadline then (false, alDel s k) else (true, s)

/-- Modelled from the spec: `get(key)` at time `now`, with the same lazy
expiry as `hasAt`. -/
def TTLStore.getAt (s : TTLStore) (now : Nat) (k : List Val) :
    Option Val × TTLStore :=
  match alGet s k with
  | none => (none, s)
  | some e =>
    if entryExpired now e.deadline then (none, alDel s k) else (some e.value, s)

/-- Modelled from the spec: `set(key, value, ttl)` at time `now` stores
the value with absolute deadline `now + ttl` (no deadline when no ttl). -/
def TTLStore.setAt (s : TTLStore) (now : Nat) (k : List Val) (v : Val)
    (ttl : Option Nat) : TTLStore :=
  alSet s k ⟨v, ttl.map (fun t => now + t)⟩

/- ### Options and wrapper data -/

/-- The options object accepted by `CachedFunction`: each field is
`none` when the property is absent from the object.  `ttl` is carried as
a rational so that non-integer inputs are expressible and the
`check.assert.maybe.integer` validation is meaningful. -/
structure Options where
  strictArgMatch : Option Bool := none
  ttl : Option ℚ := none
deriving DecidableEq, Repr

/-- Canonical string form of a rational (used only inside
`serializeOptions`). -/
def ratStr (q : ℚ) : String := toString q.num ++ "/" ++ toString q.den

/-- The serialization of the options argument used as the wrapper
identity key (`maybeStringify(arguments[1], \x7bfallback: ''\x7d)` on
line 56): a model of `JSON.stringify` on the options object, with the
explicit empty marker `""` when no options object is supplied. -/
def serializeOptions : Option Options → String
  | none => ""
  | some o =>
    "(" ++
      (match o.strictArgMatch with
       | none => ""
       | some b => "strictArgMatch:" ++ toString b ++ ",") ++
      (match o.ttl with
       | none => ""
       | some q => "ttl:" ++ ratStr q ++ ",") ++ ")"

/-- The two ttl validations on lines 62-63: `ttl`, if present, must be
an integer (`check.assert.maybe.integer`) and positive
(`check.assert.maybe.positive`). -/
def validTtl : Option ℚ → Bool
  | none => true
  | some q => decide (q.den = 1) && decide (0 < q)

/-- The data of one cached wrapper: the underlying callable's identity
and the options object it was constructed with (the source keeps the raw
options in the `cachedFunctionOptions` WeakMap, line 92, and the
destructured `strictArgMatch`/`ttl` in the closure, line 51; both derive
from the same object). -/
structure Wrapper where
  underlying : Nat
  options : Option Options
deriving DecidableEq, Repr

/-- The effective `strictArgMatch` of a wrapper: the destructuring
default `strictArgMatch = true` on line 51 (and equally
`cachedFunctionOptions.get(f).strictArgMatch` fed through
`generateKey`'s default on line 171). -/
def Wrapper.strictOf (wd : Wrapper) : Bool :=
  match wd.options with
  | none => true
  | some o => o.strictArgMatch.getD true

/-- The effective ttl of a validated wrapper, in milliseconds. -/
def Wrapper.ttlMs (wd : Wrapper) : Option Nat :=
  (wd.options.bind (·.ttl)).map (fun q => q.num.toNat)

/- ### The world and the engine state -/

/-- The host environment, fixed for a run: which reference values are
callable, what each callable computes (pure, per the spec's purity
assumption), the serialized contents of each reference value, object
members and property-descriptor getters (`get-descriptor`), and which
references are arrays with which elements. -/
structure World where
  isFunc : Nat → Bool
  impl : Nat → Ctx → List Val → Val
  ser : Nat → String
  member : Nat → String → Option Val
  descGet : Nat → String → Option (Option Val)

/-- The spec's error taxonomy (§7).  The source's `SyntaxError` maps to
`UsageError`, `TypeError`/`RangeError` to `InvalidArgument`, the
`ReferenceError`s in `clearCache` to `NotCached`, and the missing-getter
error in `cacheGetter` to `NotFound`. -/
inductive JSError where
  | InvalidArgument
  | UsageError
  | NotCached
  | NotFound
deriving DecidableEq, Repr

instance {ε α : Type} [DecidableEq ε] [DecidableEq α] : DecidableEq (Except ε α)
  | .ok x, .ok y =>
    if h : x = y then .isTrue (congrArg Except.ok h)
    else .isFalse (fun hh => h (Except.ok.inj hh))
  | .error x, .error y =>
    if h : x = y then .isTrue (congrArg Except.error h)
    else .isFalse (fun hh => h (Except.error.inj hh))
  | .ok _, .error _ => .isFalse (fun hh => Except.noConfusion hh)
  | .error _, .ok _ => .isFalse (fun hh => Except.noConfusion hh)

/-- The module-level mutable state of `src/index.js`: the fresh-identity
counter for newly created wrapper functions, the `cachedFunctions`
registry (underlying identity × serialized options → wrapper identity,
lines 13/96-97), the wrapper data (`cachedFunctionOptions` plus the
closure, line 92), the `cachedValues` two-level store (wrapper identity
→ context → TTL store, lines 15/91), and a log of underlying-callable
invocations (most recent first) used to observe how often a body runs. -/
structure Engine where
  nextId : Nat
  cachedFunctions : List ((Nat × String) × Nat)
  wrapperDefs : List (Nat × Wrapper)
  cachedValues : List (Nat × List (Ctx × TTLStore))
  calls : List Nat
deriving DecidableEq, Repr

/-- The engine with no wrappers yet; fresh identities start at `base`
(chosen above the world's own reference identities). -/
def Engine.empty (base : Nat) : Engine := ⟨base, [], [], [], []⟩

/-- How many times the underlying callable `f` has run. -/
def Engine.callCount (e : Engine) (f : Nat) : Nat := e.calls.count f

/-- The per-context store of a wrapper, if the wrapper and the context
entry exist. -/
def Engine.storeFor (e : Engine) (wid : Nat) (ctx : Ctx) : Option TTLStore :=
  (alGet e.cachedValues wid).bind (fun stores => alGet stores ctx)

/- ### CachedFunction (construction, lines 51-100) -/

/-- The factory `CachedFunction(valueGetter, options)`, lines 51-100.
`calledWithNew` is true when invoked with `new` (then `this` is defined
and the assertion on line 52 throws).  Order is the source's: the
`new`-check, then the memoized-wrapper lookup (lines 56-59), then
validation (lines 61-63), then creation and registration.  Returns the
wrapper (a function value) and the updated engine. -/
def CachedFunction (w : World) (e : Engine) (calledWithNew : Bool)
    (valueGetter : Val) (options : Option Options) :
    Except JSError (Val × Engine) :=
  if calledWithNew then .error .UsageError
  else
    let paramsKey := serializeOptions options
    let memoized : Option Nat :=
      match valueGetter with
      | .ref f => alGet e.cachedFunctions (f, paramsKey)
      | _ => none
    match memoized with
    | some wid => .ok (.ref wid, e)
    | none =>
      match valueGetter with
      | .ref f =>
        if !(w.isFunc f) then .error .InvalidArgument
        else if !(validTtl (options.bind (·.ttl))) then .error .InvalidArgument
        else
          let wid := e.nextId
          .ok (.ref wid,
            { e with
              nextId := e.nextId + 1
              cachedFunctions := alSet e.cachedFunctions (f, paramsKey) wid
              wrapperDefs := alSet e.wrapperDefs wid ⟨f, options⟩
              cachedValues := alSet e.cachedValues wid [] })
      | _ => .error .InvalidArgument

/- ### Invoking a wrapper (the `CacheLayer` body, lines 67-89) -/

/-- Lines 69-75 of the `CacheLayer` body: make sure the receiver `ctx`
has a per-context store, creating an empty one on first use. -/
def ensureCtxStore (stores0 : List (Ctx × TTLStore)) (ctx : Ctx) :
    List (Ctx × TTLStore) :=
  match alGet stores0 ctx with
  | some _ => stores0
  | none => alSet stores0 ctx ([] : TTLStore)

/-- One invocation of the wrapper `wid` with receiver `ctx` and
arguments `args` at time `now` (the `CacheLayer` closure, lines 67-89):
ensure a per-context store exists (lines 69-75), build the key (line
80), serve a non-expired hit from the store (lines 81-83), otherwise run
the underlying callable, cache its result with the configured ttl and
return it (lines 86-88).  `none` only when `wid` is not a registered
wrapper. -/
def invokeWrapper (w : World) (e : Engine) (wid : Nat) (ctx : Ctx)
    (args : List Val) (now : Nat) : Option (Val × Engine) :=
  match alGet e.wrapperDefs wid, alGet e.cachedValues wid with
  | some wd, some stores0 =>
    let stores := ensureCtxStore stores0 ctx
    let store := (alGet stores ctx).getD []
    let key := generateKey w.ser args wd.strictOf
    let hasRes := TTLStore.hasAt store now key
    if hasRes.1 then
      let getRes := TTLStore.getAt hasRes.2 now key
      some (getRes.1.getD .undef,
        { e with cachedValues := alSet e.cachedValues wid (alSet stores ctx getRes.2) })
    else
      let value := w.impl wd.underlying ctx args
      let store2 := TTLStore.setAt hasRes.2 now key value wd.ttlMs
      some (value,
        { e with
          cachedValues := alSet e.cachedValues wid (alSet stores ctx store2)
          calls := wd.underlying :: e.calls })
  | _, _ => none

/- ### clearCache (lines 135-174) -/

/-- A JavaScript value in an argument position of `clearCache` where an
array may be expected: either an array with the given element values
(`clearCache` only ever reads an args array through `Array.isArray` and
`Array.from`, so the container's identity is irrelevant) or any
non-array value. -/
inductive JArg where
  | arr (elems : List Val)
  | v (x : Val)
deriving DecidableEq, Repr

/-- Whether a value has `typeof === 'object'` (the dispatch on line
139): non-function reference values and `null`. -/
def typeofIsObject (w : World) : Val → Bool
  | .null => true
  | .ref i => !(w.isFunc i)
  | _ => false

/-- The common tail of `clearCache` (lines 161-173): the `NotCached`
assertion against the `cachedValues` WeakMap, the argument-list
validation, the silent no-op when the context has no store, and the
deletion of either the whole context store or the one key built from the
argument list. -/
def clearFinish (w : World) (e : Engine) (cachedFunction : Option Val)
    (context : Ctx) (args : Option JArg) : Except JSError Engine :=
  let widOpt : Option Nat :=
    match cachedFunction with
    | some (.ref i) => if (alGet e.cachedValues i).isSome then some i else none
    | _ => none
  match widOpt with
  | none => .error .NotCached
  | some wid =>
    match args with
    | some (.v _) => .error .InvalidArgument
    | _ =>
      let stores := (alGet e.cachedValues wid).getD []
      if (alGet stores context).isSome then
        match args with
        | none =>
          .ok { e with cachedValues := alSet e.cachedValues wid (alDel stores context) }
        | some (.arr as) =>
          let strict := ((alGet e.wrapperDefs wid).getD ⟨0, none⟩).strictOf
          let key := generateKey w.ser as strict
          let st := (alGet stores context).getD []
          .ok { e with
            cachedValues := alSet e.cachedValues wid (alSet stores context (alDel st key)) }
        | some (.v _) => .error .InvalidArgument
      else .ok e

/-- The operation `CachedFunction.clearCache(objectOrFunction, methodName, args)`,
lines 135-174.  The second and third JavaScript parameters are `arg2`
and `arg3` (`none` = absent/undefined).  Object shape (line 139):
`arg2` must be a string member name; a member that is a plain callable
is the target with `arg3` as the argument list; otherwise the property
descriptor's getter is the target and the argument list is replaced by
the empty array (line 152).  Function shape: the target is the first
argument, the context is the `noThis` sentinel, and `arg2` is the
argument list (line 158). -/
def clearCache (w : World) (e : Engine) (objectOrFunction : Val)
    (arg2 : Option JArg) (arg3 : Option JArg) : Except JSError Engine :=
  if typeofIsObject w objectOrFunction then
    match arg2 with
    | some (.v (.str name)) =>
      match objectOrFunction with
      | .ref obj =>
        let memberVal := w.member obj name
        match memberVal with
        | some (.ref m) =>
          if w.isFunc m then clearFinish w e (some (.ref m)) (some obj) arg3
          else
            match w.descGet obj name with
            | none => .error .NotCached
            | some g => clearFinish w e g (some obj) (some (.arr []))
        | _ =>
          match w.descGet obj name with
          | none => .error .NotCached
          | some g => clearFinish w e g (some obj) (some (.arr []))
      | _ => .error .InvalidArgument
    | _ => .error .InvalidArgument
  else
    match objectOrFunction with
    | .ref f =>
      if w.isFunc f then clearFinish w e (some (.ref f)) none arg2
      else .error .InvalidArgument
    | _ => .error .InvalidArgument

/- ### Observations used by the theorems -/

/-- Whether a wrapper currently holds a live (non-expired) cached entry
for the given receiver and arguments at time `now` — the same check the
`CacheLayer` hit path performs. -/
def hasCached (w : World) (e : Engine) (wid : Nat) (ctx : Ctx)
    (args : List Val) (now : Nat) : Bool :=
  match alGet e.wrapperDefs wid, e.storeFor wid ctx with
  | some wd, some st => (TTLStore.hasAt st now (generateKey w.ser args wd.strictOf)).1
  | _, _ => false

/- ### Association-list lemmas -/

theorem alGet_cons {α β : Type} [DecidableEq α] (p : α × β) (l : List (α × β))
    (k : α) : alGet (p :: l) k = if p.1 = k then some p.2 else alGet l k := by
  by_cases h : p.1 = k <;> simp [alGet, List.find?, h]

theorem alGet_filterOut {α β : Type} [DecidableEq α] (l : List (α × β))
    (k k' : α) (h : k' ≠ k) :
    alGet (l.filter (fun p => !(decide (p.1 = k)))) k' = alGet l k' := by
  induction l with
  | nil => rfl
  | cons p l ih =>
    by_cases hp : p.1 = k
    · simp [List.filter, hp, alGet_cons, Ne.symm h, ih]
    · simp [List.filter, hp, alGet_cons, ih]

theorem alGet_alSet_self {α β : Type} [DecidableEq α] (l : List (α × β))
    (k : α) (v : β) : alGet (alSet l k v) k = some v := by
  simp [alSet, alGet_cons]

theorem alGet_alSet_ne {α β : Type} [DecidableEq α] (l : List (α × β))
    (k k' : α) (v : β) (h : k' ≠ k) : alGet (alSet l k v) k' = alGet l k' := by
  have h' : k ≠ k' := fun hh => h hh.symm
  simp [alSet, alGet_cons, h', alGet_filterOut l k k' h]

theorem alGet_alDel_self {α β : Type} [DecidableEq α] (l : List (α × β))
    (k : α) : alGet (alDel l k) k = none := by
  induction l with
  | nil => rfl
  | cons p l ih =>
    by_cases hp : p.1 = k
    · simp [alDel, List.filter, hp] at ih ⊢; exact ih
    · simp [alDel, List.filter, hp, alGet_cons] at ih ⊢; simp [ih]

theorem alGet_alDel_ne {α β : Type} [DecidableEq α] (l : List (α × β))
    (k k' : α) (h : k' ≠ k) : alGet (alDel l k) k' = alGet l k' :=
  alGet_filterOut l k k' h

theorem alDel_id {α β : Type} [DecidableEq α] (l : List (α × β)) (k : α)
    (h : alGet l k = none) : alDel l k = l := by
  induction l with
  | nil => rfl
  | cons p l ih =>
    rw [alGet_cons] at h
    by_cases hp : p.1 = k
    · simp [hp] at h
    · simp only [hp, if_false] at h
      simp [alDel, List.filter, hp] at ih ⊢
      exact ih h

/- ### Unfolding lemmas for the engine operations -/

theorem ensureCtxStore_get (stores0 : List (Ctx × TTLStore)) (ctx : Ctx) :
    (alGet (ensureCtxStore stores0 ctx) ctx).getD [] =
      (alGet stores0 ctx).getD [] := by
  cases h : alGet stores0 ctx <;> simp [ensureCtxStore, h, alGet_alSet_self]

theorem ensureCtxStore_get_ne (stores0 : List (Ctx × TTLStore)) (ctx ctx' : Ctx)
    (h : ctx' ≠ ctx) :
    alGet (ensureCtxStore stores0 ctx) ctx' = alGet stores0 ctx' := by
  cases h0 : alGet stores0 ctx <;>
    simp [ensureCtxStore, h0, alGet_alSet_ne _ _ _ _ h]

theorem hasCached_eq (w : World) (e : Engine) (wid : Nat) (ctx : Ctx)
    (args : List Val) (now : Nat) (wd : Wrapper)
    (stores0 : List (Ctx × TTLStore))
    (hwd : alGet e.wrapperDefs wid = some wd)
    (hcv : alGet e.cachedValues wid = some stores0) :
    hasCached w e wid ctx args now =
      (TTLStore.hasAt ((alGet stores0 ctx).getD []) now
        (generateKey w.ser args wd.strictOf)).1 := by
  cases h : alGet stores0 ctx with
  | none =>
    simp only [hasCached, Engine.storeFor, hwd, hcv, h, Option.bind]
    simp [TTLStore.hasAt, alGet, List.find?]
  | some st =>
    simp only [hasCached, Engine.storeFor, hwd, hcv, h, Option.bind]
    simp

theorem invokeWrapper_eq (w : World) (e : Engine) (wid : Nat) (ctx : Ctx)
    (args : List Val) (now : Nat) (wd : Wrapper)
    (stores0 : List (Ctx × TTLStore))
    (hwd : alGet e.wrapperDefs wid = some wd)
    (hcv : alGet e.cachedValues wid = some stores0) :
    invokeWrapper w e wid ctx args now =
      (let stores := ensureCtxStore stores0 ctx
       let store := (alGet stores0 ctx).getD []
       let key := generateKey w.ser args wd.strictOf
       let hasRes := TTLStore.hasAt store now key
       if hasRes.1 then
         let getRes := TTLStore.getAt hasRes.2 now key
         some (getRes.1.getD .undef,
           { e with cachedValues := alSet e.cachedValues wid (alSet stores ctx getRes.2) })
       else
         let value := w.impl wd.underlying ctx args
         let store2 := TTLStore.setAt hasRes.2 now key value wd.ttlMs
         some (value,
           { e with
             cachedValues := alSet e.cachedValues wid (alSet stores ctx store2)
             calls := wd.underlying :: e.calls })) := by
  simp only [invokeWrapper, hwd, hcv, ensureCtxStore_get]

/-- Executable guard: the interval from a store at `now1` to a read at
`now2` stays inside the wrapper's ttl (vacuously true with no ttl). -/
def notExpiredBy (ttl : Option Nat) (now1 now2 : Nat) : Bool :=
  match ttl with
  | none => true
  | some t => decide (now2 < now1 + t)

/-- Core memoization fact: starting from any engine state in which the
wrapper holds no live entry for the key of `args`, a first invocation
runs the underlying callable, and a second invocation within the ttl
window with any argument list building the same key is a pure cache hit
— it runs nothing and returns the first call's value. -/
theorem invoke_miss_then_hit
    (w : World) (e : Engine) (wid : Nat) (wd : Wrapper)
    (stores0 : List (Ctx × TTLStore)) (ctx : Ctx) (args args2 : List Val)
    (now1 now2 : Nat)
    (hwd : alGet e.wrapperDefs wid = some wd)
    (hcv : alGet e.cachedValues wid = some stores0)
    (hkeys : generateKey w.ser args2 wd.strictOf =
      generateKey w.ser args wd.strictOf)
    (hmiss : hasCached w e wid ctx args now1 = false)
    (hfresh : notExpiredBy wd.ttlMs now1 now2 = true)
    (v1 : Val) (e1 : Engine) (v2 : Val) (e2 : Engine)
    (h1 : invokeWrapper w e wid ctx args now1 = some (v1, e1))
    (h2 : invokeWrapper w e1 wid ctx args2 now2 = some (v2, e2)) :
    v1 = w.impl wd.underlying ctx args ∧
    e1.calls = wd.underlying :: e.calls ∧
    v2 = v1 ∧ e2.calls = e1.calls := by
  rw [invokeWrapper_eq w e wid ctx args now1 wd stores0 hwd hcv] at h1
  rw [hasCached_eq w e wid ctx args now1 wd stores0 hwd hcv] at hmiss
  simp only [hmiss, Bool.false_eq_true, if_false, Option.some.injEq,
    Prod.mk.injEq] at h1
  obtain ⟨hv1, he1⟩ := h1
  have hwd1 : alGet e1.wrapperDefs wid = some wd := by rw [← he1]; exact hwd
  have hcv1 : alGet e1.cachedValues wid =
      some (alSet (ensureCtxStore stores0 ctx) ctx
        (TTLStore.setAt
          (TTLStore.hasAt ((alGet stores0 ctx).getD []) now1
            (generateKey w.ser args wd.strictOf)).2
          now1 (generateKey w.ser args wd.strictOf)
          (w.impl wd.underlying ctx args) wd.ttlMs)) := by
    rw [← he1]; exact alGet_alSet_self _ _ _
  rw [invokeWrapper_eq w e1 wid ctx args2 now2 wd _ hwd1 hcv1] at h2
  rw [hkeys] at h2
  have hlook : alGet (alSet (ensureCtxStore stores0 ctx) ctx
      (TTLStore.setAt
        (TTLStore.hasAt ((alGet stores0 ctx).getD []) now1
          (generateKey w.ser args wd.strictOf)).2
        now1 (generateKey w.ser args wd.strictOf)
        (w.impl wd.underlying ctx args) wd.ttlMs)) ctx =
      some (TTLStore.setAt
        (TTLStore.hasAt ((alGet stores0 ctx).getD []) now1
          (generateKey w.ser args wd.strictOf)).2
        now1 (generateKey w.ser args wd.strictOf)
        (w.impl wd.underlying ctx args) wd.ttlMs) :=
    alGet_alSet_self _ _ _
  have hnotexp :
      entryExpired now2 ((wd.ttlMs).map (fun t => now1 + t)) = false := by
    cases httl : wd.ttlMs with
    | none => simp [entryExpired]
    | some t =>
      simp only [notExpiredBy, httl, decide_eq_true_eq] at hfresh
      simp [entryExpired, Nat.not_le_of_lt, hfresh, Nat.not_le.mpr]
  simp only [hlook, Option.getD_some, TTLStore.setAt, TTLStore.hasAt,
    TTLStore.getAt, alGet_alSet_self, hnotexp, Bool.false_eq_true, if_false,
    if_true, Option.getD_some, Option.some.injEq, Prod.mk.injEq] at h2
  obtain ⟨hv2, he2⟩ := h2
  refine ⟨hv1.symm, by rw [← he1], ?_, by rw [← he2, ← he1]⟩
  rw [← hv2, ← hv1]

/-- The currently stored (live) value of a key, if any: the read the
hit path performs. -/
def cachedValueAt (w : World) (e : Engine) (wid : Nat) (ctx : Ctx)
    (args : List Val) (now : Nat) : Option Val :=
  match alGet e.wrapperDefs wid, e.storeFor wid ctx with
  | some wd, some st => (TTLStore.getAt st now (generateKey w.ser args wd.strictOf)).1
  | _, _ => none

/-- A single invocation on a miss: the underlying callable runs once and
its result is returned. -/
theorem invoke_miss_char
    (w : World) (e : Engine) (wid : Nat) (wd : Wrapper)
    (stores0 : List (Ctx × TTLStore)) (ctx : Ctx) (args : List Val)
    (now : Nat)
    (hwd : alGet e.wrapperDefs wid = some wd)
    (hcv : alGet e.cachedValues wid = some stores0)
    (hmiss : hasCached w e wid ctx args now = false)
    (v1 : Val) (e1 : Engine)
    (h1 : invokeWrapper w e wid ctx args now = some (v1, e1)) :
    v1 = w.impl wd.underlying ctx args ∧
    e1.calls = wd.underlying :: e.calls := by
  rw [invokeWrapper_eq w e wid ctx args now wd stores0 hwd hcv] at h1
  rw [hasCached_eq w e wid ctx args now wd stores0 hwd hcv] at hmiss
  simp only [hmiss, Bool.false_eq_true, if_false, Option.some.injEq,
    Prod.mk.injEq] at h1
  obtain ⟨hv1, he1⟩ := h1
  exact ⟨hv1.symm, by rw [← he1]⟩

/-- A single invocation on a live hit: nothing runs and the stored value
is returned. -/
theorem invoke_hit_char
    (w : World) (e : Engine) (wid : Nat) (wd : Wrapper)
    (stores0 : List (Ctx × TTLStore)) (ctx : Ctx) (args : List Val)
    (now : Nat)
    (hwd : alGet e.wrapperDefs wid = some wd)
    (hcv : alGet e.cachedValues wid = some stores0)
    (hhit : hasCached w e wid ctx args now = true)
    (v1 : Val) (e1 : Engine)
    (h1 : invokeWrapper w e wid ctx args now = some (v1, e1)) :
    e1.calls = e.calls ∧
    cachedValueAt w e wid ctx args now = some v1 := by
  rw [invokeWrapper_eq w e wid ctx args now wd stores0 hwd hcv] at h1
  have hhit' := hhit
  rw [hasCached_eq w e wid ctx args now wd stores0 hwd hcv] at hhit'
  simp only [hhit', if_true] at h1
  have hst : e.storeFor wid ctx = alGet stores0 ctx := by
    simp [Engine.storeFor, hcv]
  -- a true `has` answer means a present, non-expired entry
  cases hlk : alGet ((alGet stores0 ctx).getD [])
      (generateKey w.ser args wd.strictOf) with
  | none =>
    rw [TTLStore.hasAt, hlk] at hhit'
    simp at hhit'
  | some entry =>
    by_cases hexp : entryExpired now entry.deadline
    · rw [TTLStore.hasAt, hlk] at hhit'
      simp [hexp] at hhit'
    · have hcase : alGet stores0 ctx = some ((alGet stores0 ctx).getD []) := by
        cases hc : alGet stores0 ctx with
        | none =>
          rw [hc] at hlk
          simp [alGet] at hlk
        | some st => simp [hc]
      have hhas : TTLStore.hasAt ((alGet stores0 ctx).getD []) now
          (generateKey w.ser args wd.strictOf) =
          (true, (alGet stores0 ctx).getD []) := by
        rw [TTLStore.hasAt, hlk]
        simp [hexp]
      have hget : TTLStore.getAt ((alGet stores0 ctx).getD []) now
          (generateKey w.ser args wd.strictOf) =
          (some entry.value, (alGet stores0 ctx).getD []) := by
        rw [TTLStore.getAt, hlk]
        simp [hexp]
      rw [hhas] at h1
      rw [hget] at h1
      simp only [Option.getD_some, Option.some.injEq, Prod.mk.injEq] at h1
      refine ⟨?_, ?_⟩
      · rw [← h1.2]
      · rw [cachedValueAt, hwd, hst, hcase]
        show (TTLStore.getAt ((alGet stores0 ctx).getD []) now
          (generateKey w.ser args wd.strictOf)).1 = some v1
        rw [hget]
        simp [h1.1]

/-- The full engine state after a miss invocation. -/
theorem invoke_miss_engine
    (w : World) (e : Engine) (wid : Nat) (wd : Wrapper)
    (stores0 : List (Ctx × TTLStore)) (ctx : Ctx) (args : List Val)
    (now : Nat)
    (hwd : alGet e.wrapperDefs wid = some wd)
    (hcv : alGet e.cachedValues wid = some stores0)
    (hmiss : hasCached w e wid ctx args now = false)
    (v1 : Val) (e1 : Engine)
    (h1 : invokeWrapper w e wid ctx args now = some (v1, e1)) :
    e1 = { e with
      cachedValues := alSet e.cachedValues wid
        (alSet (ensureCtxStore stores0 ctx) ctx
          (TTLStore.setAt
            (TTLStore.hasAt ((alGet stores0 ctx).getD []) now
              (generateKey w.ser args wd.strictOf)).2
            now (generateKey w.ser args wd.strictOf)
            (w.impl wd.underlying ctx args) wd.ttlMs))
      calls := wd.underlying :: e.calls } := by
  rw [invokeWrapper_eq w e wid ctx args now wd stores0 hwd hcv] at h1
  rw [hasCached_eq w e wid ctx args now wd stores0 hwd hcv] at hmiss
  simp only [hmiss, Bool.false_eq_true, if_false, Option.some.injEq,
    Prod.mk.injEq] at h1
  exact h1.2.symm

/-- The per-context store after an invocation agrees with the old store
on every key other than the invoked one. -/
theorem invoke_preserves_other_keys
    (w : World) (e : Engine) (wid : Nat) (wd : Wrapper)
    (stores0 : List (Ctx × TTLStore)) (ctx : Ctx) (args : List Val)
    (now : Nat) (v1 : Val) (e1 : Engine) (key' : List Val)
    (hwd : alGet e.wrapperDefs wid = some wd)
    (hcv : alGet e.cachedValues wid = some stores0)
    (h1 : invokeWrapper w e wid ctx args now = some (v1, e1))
    (hk : key' ≠ generateKey w.ser args wd.strictOf) :
    ∃ st1, e1.storeFor wid ctx = some st1 ∧
      alGet st1 key' = alGet ((alGet stores0 ctx).getD []) key' := by
  rw [invokeWrapper_eq w e wid ctx args now wd stores0 hwd hcv] at h1
  set store := (alGet stores0 ctx).getD [] with hstore
  set key := generateKey w.ser args wd.strictOf with hkey
  have hhalf : alGet (TTLStore.hasAt store now key).2 key' = alGet store key' := by
    rw [TTLStore.hasAt]
    cases hlk : alGet store key with
    | none => simp
    | some entry =>
      by_cases hexp : entryExpired now entry.deadline
      · simp only [hexp, if_true]
        exact alGet_alDel_ne _ _ _ hk
      · simp [hexp]
  by_cases hht : (TTLStore.hasAt store now key).1
  · simp only [hht, if_true, Option.some.injEq, Prod.mk.injEq] at h1
    obtain ⟨_, he1⟩ := h1
    refine ⟨(TTLStore.getAt (TTLStore.hasAt store now key).2 now key).2, ?_, ?_⟩
    · rw [← he1]
      simp [Engine.storeFor, alGet_alSet_self]
    · have hgetp : alGet (TTLStore.getAt (TTLStore.hasAt store now key).2 now key).2 key' =
          alGet (TTLStore.hasAt store now key).2 key' := by
        rw [TTLStore.getAt]
        cases hlk : alGet (TTLStore.hasAt store now key).2 key with
        | none => simp
        | some entry =>
          by_cases hexp : entryExpired now entry.deadline
          · simp only [hexp, if_true]
            exact alGet_alDel_ne _ _ _ hk
          · simp [hexp]
      rw [hgetp, hhalf]
  · simp only [hht, if_false, Option.some.injEq, Prod.mk.injEq,
      Bool.false_eq_true] at h1
    obtain ⟨_, he1⟩ := h1
    refine ⟨TTLStore.setAt (TTLStore.hasAt store now key).2 now key
      (w.impl wd.underlying ctx args) wd.ttlMs, ?_, ?_⟩
    · rw [← he1]
      simp [Engine.storeFor, alGet_alSet_self]
    · rw [TTLStore.setAt]
      rw [alGet_alSet_ne _ _ _ _ hk, hhalf]

/-- Whether a key is live depends on the store only through that key's
entry. -/
theorem hasAt_congr (s s' : TTLStore) (now : Nat) (k : List Val)
    (h : alGet s k = alGet s' k) :
    (TTLStore.hasAt s now k).1 = (TTLStore.hasAt s' now k).1 := by
  rw [TTLStore.hasAt, TTLStore.hasAt, h]
  cases alGet s' k with
  | none => rfl
  | some entry => by_cases hexp : entryExpired now entry.deadline <;> simp [hexp]

/-- Frame: an invocation does not change whether a different key of the
same context is live. -/
theorem hasCached_after_invoke_ne
    (w : World) (e : Engine) (wid : Nat) (wd : Wrapper)
    (stores0 : List (Ctx × TTLStore)) (ctx : Ctx) (args args2 : List Val)
    (now now' : Nat) (v1 : Val) (e1 : Engine)
    (hwd : alGet e.wrapperDefs wid = some wd)
    (hcv : alGet e.cachedValues wid = some stores0)
    (h1 : invokeWrapper w e wid ctx args now = some (v1, e1))
    (hk : generateKey w.ser args2 wd.strictOf ≠
      generateKey w.ser args wd.strictOf) :
    hasCached w e1 wid ctx args2 now' = hasCached w e wid ctx args2 now' := by
  obtain ⟨st1, hst1, hagree⟩ :=
    invoke_preserves_other_keys w e wid wd stores0 ctx args now v1 e1
      (generateKey w.ser args2 wd.strictOf) hwd hcv h1 hk
  have hwd1 : alGet e1.wrapperDefs wid = some wd := by
    rw [invokeWrapper_eq w e wid ctx args now wd stores0 hwd hcv] at h1
    by_cases hht : (TTLStore.hasAt ((alGet stores0 ctx).getD []) now
        (generateKey w.ser args wd.strictOf)).1 <;>
      simp only [hht, if_true, if_false, Bool.false_eq_true,
        Option.some.injEq, Prod.mk.injEq] at h1 <;>
      obtain ⟨_, he1⟩ := h1 <;> rw [← he1] <;> exact hwd
  have hrhs : hasCached w e wid ctx args2 now' =
      (TTLStore.hasAt ((alGet stores0 ctx).getD []) now'
        (generateKey w.ser args2 wd.strictOf)).1 :=
    hasCached_eq w e wid ctx args2 now' wd stores0 hwd hcv
  rw [hrhs]
  rw [hasCached]
  rw [hwd1, hst1]
  exact hasAt_congr _ _ _ _ hagree

/-- An invocation leaves the identity registries and the wrapper's
registration intact. -/
theorem invoke_registration
    (w : World) (e : Engine) (wid : Nat) (wd : Wrapper)
    (stores0 : List (Ctx × TTLStore)) (ctx : Ctx) (args : List Val)
    (now : Nat) (v1 : Val) (e1 : Engine)
    (hwd : alGet e.wrapperDefs wid = some wd)
    (hcv : alGet e.cachedValues wid = some stores0)
    (h1 : invokeWrapper w e wid ctx args now = some (v1, e1)) :
    e1.wrapperDefs = e.wrapperDefs ∧ e1.cachedFunctions = e.cachedFunctions ∧
    e1.nextId = e.nextId ∧
    ∃ stores1, alGet e1.cachedValues wid = some stores1 := by
  rw [invokeWrapper_eq w e wid ctx args now wd stores0 hwd hcv] at h1
  by_cases hht : (TTLStore.hasAt ((alGet stores0 ctx).getD []) now
      (generateKey w.ser args wd.strictOf)).1 <;>
    simp only [hht, if_true, if_false, Bool.false_eq_true, Option.some.injEq,
      Prod.mk.injEq] at h1 <;>
    rw [← h1.2] <;>
    exact ⟨rfl, rfl, rfl, _, alGet_alSet_self _ _ _⟩

/-- Frame: an invocation with one receiver leaves every other receiver's
store untouched. -/
theorem invoke_storeFor_other_ctx
    (w : World) (e : Engine) (wid : Nat) (wd : Wrapper)
    (stores0 : List (Ctx × TTLStore)) (ctx ctx' : Ctx) (args : List Val)
    (now : Nat) (v1 : Val) (e1 : Engine)
    (hwd : alGet e.wrapperDefs wid = some wd)
    (hcv : alGet e.cachedValues wid = some stores0)
    (h1 : invokeWrapper w e wid ctx args now = some (v1, e1))
    (hne : ctx' ≠ ctx) :
    e1.storeFor wid ctx' = e.storeFor wid ctx' := by
  rw [invokeWrapper_eq w e wid ctx args now wd stores0 hwd hcv] at h1
  by_cases hht : (TTLStore.hasAt ((alGet stores0 ctx).getD []) now
      (generateKey w.ser args wd.strictOf)).1 <;>
    simp only [hht, if_true, if_false, Bool.false_eq_true, Option.some.injEq,
      Prod.mk.injEq] at h1 <;>
    rw [← h1.2] <;>
    simp [Engine.storeFor, hcv, alGet_alSet_self,
      alGet_alSet_ne _ _ _ _ hne, ensureCtxStore_get_ne _ _ _ hne]

/-- Frame: an invocation with one receiver does not change whether any
key of a different receiver is live. -/
theorem hasCached_after_invoke_other_ctx
    (w : World) (e : Engine) (wid : Nat) (wd : Wrapper)
    (stores0 : List (Ctx × TTLStore)) (ctx ctx' : Ctx) (args args' : List Val)
    (now now' : Nat) (v1 : Val) (e1 : Engine)
    (hwd : alGet e.wrapperDefs wid = some wd)
    (hcv : alGet e.cachedValues wid = some stores0)
    (h1 : invokeWrapper w e wid ctx args now = some (v1, e1))
    (hne : ctx' ≠ ctx) :
    hasCached w e1 wid ctx' args' now' = hasCached w e wid ctx' args' now' := by
  obtain ⟨hdefs, -, -, -⟩ :=
    invoke_registration w e wid wd stores0 ctx args now v1 e1 hwd hcv h1
  have hsf := invoke_storeFor_other_ctx w e wid wd stores0 ctx ctx' args now
    v1 e1 hwd hcv h1 hne
  simp only [hasCached, hdefs, hsf]

/-- Frame for the common tail of `clearCache`: a successful clear
targeted at one context leaves every other context's store (for every
wrapper) untouched, and never touches the identity registries or the
call log. -/
theorem clearFinish_frame
    (w : World) (e : Engine) (cf : Option Val) (context : Ctx)
    (args : Option JArg) (e' : Engine)
    (h : clearFinish w e cf context args = .ok e') :
    (∀ wid' ctx', ctx' ≠ context → e'.storeFor wid' ctx' = e.storeFor wid' ctx') ∧
    e'.wrapperDefs = e.wrapperDefs ∧ e'.cachedFunctions = e.cachedFunctions ∧
    e'.calls = e.calls := by
  cases cf with
  | none => simp [clearFinish] at h
  | some v =>
    cases v with
    | undef => simp [clearFinish] at h
    | null => simp [clearFinish] at h
    | bool b => simp [clearFinish] at h
    | num n => simp [clearFinish] at h
    | str s => simp [clearFinish] at h
    | ref i =>
      by_cases hreg : (alGet e.cachedValues i).isSome
      · obtain ⟨stores, hst⟩ := Option.isSome_iff_exists.mp hreg
        cases args with
        | none =>
          by_cases hctx : (alGet stores context).isSome
          · simp only [clearFinish, hst, Option.isSome_some, if_true,
              Option.getD_some, hctx, Except.ok.injEq] at h
            subst h
            refine ⟨?_, rfl, rfl, rfl⟩
            intro wid' ctx' hne
            by_cases hw : wid' = i
            · subst hw
              simp [Engine.storeFor, hst, alGet_alSet_self,
                alGet_alDel_ne _ _ _ hne]
            · simp [Engine.storeFor, alGet_alSet_ne _ _ _ _ hw]
          · simp only [clearFinish, hst, Option.isSome_some, if_true,
              Option.getD_some, hctx, Bool.false_eq_true, if_false,
              Except.ok.injEq] at h
            subst h
            exact ⟨fun _ _ _ => rfl, rfl, rfl, rfl⟩
        | some ja =>
          cases ja with
          | v x => simp [clearFinish, hst] at h
          | arr as =>
            by_cases hctx : (alGet stores context).isSome
            · simp only [clearFinish, hst, Option.isSome_some, if_true,
                Option.getD_some, hctx, Except.ok.injEq] at h
              subst h
              refine ⟨?_, rfl, rfl, rfl⟩
              intro wid' ctx' hne
              by_cases hw : wid' = i
              · subst hw
                simp [Engine.storeFor, hst, alGet_alSet_self,
                  alGet_alSet_ne _ _ _ _ hne]
              · simp [Engine.storeFor, alGet_alSet_ne _ _ _ _ hw]
            · simp only [clearFinish, hst, Option.isSome_some, if_true,
                Option.getD_some, hctx, Bool.false_eq_true, if_false,
                Except.ok.injEq] at h
              subst h
              exact ⟨fun _ _ _ => rfl, rfl, rfl, rfl⟩
      · rw [Option.not_isSome_iff_eq_none] at hreg
        simp only [clearFinish, hreg, Option.isSome_none,
          Bool.false_eq_true, if_false] at h
        cases args with
        | none => simp at h
        | some ja => cases ja <;> simp at h

/- ### A concrete demonstration world (used by the witnesses) -/

/-- A small host environment: references 0-9 are callables (0 adds two
numbers, 1 always returns `undefined`, 2 is a method reading its
receiver), references from 100 up are the wrapper functions the engine
creates; references 40 and 41 are two distinct objects with identical
contents (they serialize the same); object 20 has a method member `m`
(the wrapper 100) and object 21 has a property getter `g` (also
resolving to wrapper 100). -/
def w0 : World where
  isFunc := fun i => decide (i < 10) || decide (100 ≤ i)
  impl := fun f ctx args =>
    match f, ctx, args with
    | 0, _, [.num a, .num b] => .num (a + b)
    | 1, _, _ => .undef
    | 2, some c, _ => .num (Int.ofNat c)
    | _, _, _ => .null
  ser := fun i => if i = 41 then "obj40" else "obj" ++ toString i
  member := fun obj name =>
    if obj = 20 && name = "m" then some (.ref 100) else none
  descGet := fun obj name =>
    if obj = 21 && name = "g" then some (some (.ref 100)) else none

/-- Fallback pair for reading `Option (Val × Engine)` results. -/
def dflt : Val × Engine := (.undef, Engine.empty 0)

/-- The engine after wrapping callable 0 (no options): wrapper 100. -/
def engA : Engine :=
  ((CachedFunction w0 (Engine.empty 100) false (.ref 0) none).toOption.getD dflt).2

/-- First invocation of wrapper 100 with `(2, 2)` at time 0. -/
def invB : Option (Val × Engine) :=
  invokeWrapper w0 engA 100 none [.num 2, .num 2] 0

def valB : Val := (invB.getD dflt).1

def engB : Engine := (invB.getD dflt).2

/-- Second invocation with the same arguments at time 5. -/
def invC : Option (Val × Engine) :=
  invokeWrapper w0 engB 100 none [.num 2, .num 2] 5

def valC : Val := (invC.getD dflt).1

def engC : Engine := (invC.getD dflt).2

/- ### The claims -/

/-- C1: Memoization: for every underlying callable `f`, context and
argument list, invoking the wrapper twice with the same arguments (same
context, no intervening clear, no ttl expiry) runs the body of `f`
exactly once — the first invocation runs it, the second is a hit that
runs nothing — and the second invocation returns exactly the value the
first invocation produced and stored. -/
theorem c1_memoization
    (w : World) (e : Engine) (wid f : Nat) (wd : Wrapper)
    (stores0 : List (Ctx × TTLStore)) (ctx : Ctx) (args : List Val)
    (now1 now2 : Nat)
    (hwd : alGet e.wrapperDefs wid = some wd)
    (hf : wd.underlying = f)
    (hcv : alGet e.cachedValues wid = some stores0)
    (hmiss : hasCached w e wid ctx args now1 = false)
    (hfresh : notExpiredBy wd.ttlMs now1 now2 = true)
    (v1 : Val) (e1 : Engine) (v2 : Val) (e2 : Engine)
    (h1 : invokeWrapper w e wid ctx args now1 = some (v1, e1))
    (h2 : invokeWrapper w e1 wid ctx args now2 = some (v2, e2)) :
    e1.callCount f = e.callCount f + 1 ∧
    e2.callCount f = e1.callCount f ∧
    v2 = v1 ∧ v1 = w.impl f ctx args := by
  obtain ⟨hv1, hc1, hv2, hc2⟩ :=
    invoke_miss_then_hit w e wid wd stores0 ctx args args now1 now2 hwd hcv
      rfl hmiss hfresh v1 e1 v2 e2 h1 h2
  subst hf
  refine ⟨?_, ?_, hv2, hv1⟩
  · simp [Engine.callCount, hc1, List.count_cons]
  · simp [Engine.callCount, hc2]

theorem c1_memoization_witness :
    engB.callCount 0 = engA.callCount 0 + 1 ∧
    engC.callCount 0 = engB.callCount 0 ∧
    valC = valB ∧ valB = w0.impl 0 none [.num 2, .num 2] :=
  c1_memoization w0 engA 100 0 ⟨0, none⟩ [] none [.num 2, .num 2] 0 5
    (by decide) rfl (by decide) (by decide) (by decide)
    valB engB valC engC (by decide) (by decide)

/-- C9 (implicit): memoization holds even when the cached value is
`undefined`: a hit is decided by key presence (`has` on the store), not
by comparing the retrieved value with a miss sentinel, so when the
underlying callable returns `undefined` the second invocation still runs
nothing and returns the stored `undefined`. -/
theorem c9_undefined_value_memoized
    (w : World) (e : Engine) (wid f : Nat) (wd : Wrapper)
    (stores0 : List (Ctx × TTLStore)) (ctx : Ctx) (args : List Val)
    (now1 now2 : Nat)
    (hwd : alGet e.wrapperDefs wid = some wd)
    (hf : wd.underlying = f)
    (hcv : alGet e.cachedValues wid = some stores0)
    (hmiss : hasCached w e wid ctx args now1 = false)
    (hfresh : notExpiredBy wd.ttlMs now1 now2 = true)
    (hundef : w.impl f ctx args = .undef)
    (v1 : Val) (e1 : Engine) (v2 : Val) (e2 : Engine)
    (h1 : invokeWrapper w e wid ctx args now1 = some (v1, e1))
    (h2 : invokeWrapper w e1 wid ctx args now2 = some (v2, e2)) :
    e2.calls = e1.calls ∧ v1 = .undef ∧ v2 = .undef := by
  obtain ⟨hv1, _, hv2, hc2⟩ :=
    invoke_miss_then_hit w e wid wd stores0 ctx args args now1 now2 hwd hcv
      rfl hmiss hfresh v1 e1 v2 e2 h1 h2
  subst hf
  exact ⟨hc2, hv1.trans hundef, (hv2.trans hv1).trans hundef⟩

/-- The engine after also wrapping callable 1 (which always returns
`undefined`): wrapper 101. -/
def engD : Engine :=
  ((CachedFunction w0 engA false (.ref 1) none).toOption.getD dflt).2

def invE : Option (Val × Engine) :=
  invokeWrapper w0 engD 101 none [.str "x"] 0

def valE : Val := (invE.getD dflt).1

def engE : Engine := (invE.getD dflt).2

def invF : Option (Val × Engine) :=
  invokeWrapper w0 engE 101 none [.str "x"] 3

def valF : Val := (invF.getD dflt).1

def engF : Engine := (invF.getD dflt).2

theorem c9_undefined_value_memoized_witness :
    engF.calls = engE.calls ∧ valE = .undef ∧ valF = .undef :=
  c9_undefined_value_memoized w0 engD 101 1 ⟨1, none⟩ [] none [.str "x"] 0 3
    (by decide) rfl (by decide) (by decide) (by decide) (by decide)
    valE engE valF engF (by decide) (by decide)

/-- C2: Wrapper identity stability: wrapper identity is keyed by the
pair (underlying callable identity, canonical serialization of the
configuration, with the empty marker `""` for an absent configuration).
A pre-existing pair is returned as the identical wrapper with the engine
— hence every per-context store — completely untouched; this holds for
any configuration record with an equal serialization.  Two
configurations that serialize differently yield distinct wrappers; in
particular ttl 10 and ttl 100 serialize differently. -/
theorem c2_wrapper_identity
    (w : World) (e : Engine) (f : Nat) (o o2 : Option Options) (wid : Nat) :
    (alGet e.cachedFunctions (f, serializeOptions o) = some wid →
      CachedFunction w e false (.ref f) o = .ok (.ref wid, e)) ∧
    (∀ o', serializeOptions o' = serializeOptions o →
      alGet e.cachedFunctions (f, serializeOptions o) = some wid →
      CachedFunction w e false (.ref f) o' = .ok (.ref wid, e)) ∧
    (∀ e1 e2 wid1 wid2,
      alGet e.cachedFunctions (f, serializeOptions o) = none →
      alGet e.cachedFunctions (f, serializeOptions o2) = none →
      serializeOptions o2 ≠ serializeOptions o →
      CachedFunction w e false (.ref f) o = .ok (.ref wid1, e1) →
      CachedFunction w e1 false (.ref f) o2 = .ok (.ref wid2, e2) →
      wid1 ≠ wid2) ∧
    serializeOptions (some ⟨none, some 10⟩) ≠
      serializeOptions (some ⟨none, some 100⟩) := by
  refine ⟨?_, ?_, ?_, by decide⟩
  · intro h
    simp [CachedFunction, h]
  · intro o' hs h
    simp [CachedFunction, hs, h]
  · intro e1 e2 wid1 wid2 hno1 hno2 hneq h1 h2
    simp only [CachedFunction, hno1, Bool.false_eq_true, if_false] at h1
    by_cases hfn : w.isFunc f
    · simp only [hfn, Bool.not_true, Bool.false_eq_true, if_false] at h1
      by_cases hv1 : validTtl (o.bind (·.ttl))
      · simp only [hv1, Bool.not_true, Bool.false_eq_true, if_false,
          Except.ok.injEq, Prod.mk.injEq, Val.ref.injEq] at h1
        obtain ⟨hwid1, he1⟩ := h1
        have hkeyne : ((f, serializeOptions o2) : Nat × String) ≠
            (f, serializeOptions o) := by
          intro hh
          exact hneq (congrArg Prod.snd hh)
        have hno2' : alGet e1.cachedFunctions (f, serializeOptions o2) = none := by
          rw [← he1]
          rw [alGet_alSet_ne _ _ _ _ hkeyne]
          exact hno2
        simp only [CachedFunction, hno2', Bool.false_eq_true, if_false] at h2
        by_cases hfn2 : w.isFunc f
        · simp only [hfn2, Bool.not_true, Bool.false_eq_true, if_false] at h2
          by_cases hv2 : validTtl (o2.bind (·.ttl))
          · simp only [hv2, Bool.not_true, Bool.false_eq_true, if_false,
              Except.ok.injEq, Prod.mk.injEq, Val.ref.injEq] at h2
            obtain ⟨hwid2, _⟩ := h2
            have hn1 : e1.nextId = e.nextId + 1 := by rw [← he1]
            omega
          · simp [hv2] at h2
        · simp [hfn2] at h2
      · simp [hv1] at h1
    · simp [hfn] at h1

/-- The engine after wrapping callable 0 with ttl 10 from scratch. -/
def engT1 : Engine :=
  ((CachedFunction w0 (Engine.empty 100) false (.ref 0)
    (some ⟨none, some 10⟩)).toOption.getD dflt).2

theorem c2_wrapper_identity_witness :
    CachedFunction w0 engA false (.ref 0) none = .ok (.ref 100, engA) :=
  (c2_wrapper_identity w0 engA 0 none none 100).1 (by decide)

/-- C3: Key matching modes.  Under strict matching the cache key is the
ordered argument sequence itself, so two distinct reference arguments
with identical contents (equal serialization) are different keys and
both calls run the body, while primitive arguments compare structurally
(an equal string argument hits).  Under loose matching each argument is
serialized first and the key is the resulting string sequence compared
by content, so two calls with content-equal serialized argument
sequences hit the same entry regardless of object identity. -/
theorem c3_key_matching_modes
    (w : World) (e : Engine) (wid : Nat) (wd : Wrapper)
    (stores0 : List (Ctx × TTLStore)) (ctx : Ctx)
    (hwd : alGet e.wrapperDefs wid = some wd)
    (hcv : alGet e.cachedValues wid = some stores0) :
    (∀ args, generateKey w.ser args true = args) ∧
    (∀ args, generateKey w.ser args false =
      args.map (fun a => .str (serializeVal w.ser a))) ∧
    (∀ r1 r2 now1 now2 v1 e1 v2 e2,
      wd.strictOf = true → r1 ≠ r2 →
      hasCached w e wid ctx [.ref r1] now1 = false →
      hasCached w e wid ctx [.ref r2] now2 = false →
      invokeWrapper w e wid ctx [.ref r1] now1 = some (v1, e1) →
      invokeWrapper w e1 wid ctx [.ref r2] now2 = some (v2, e2) →
      e1.calls = wd.underlying :: e.calls ∧
      e2.calls = wd.underlying :: e1.calls) ∧
    (∀ (s : String) now1 now2 v1 e1 v2 e2,
      wd.strictOf = true →
      notExpiredBy wd.ttlMs now1 now2 = true →
      hasCached w e wid ctx [.str s] now1 = false →
      invokeWrapper w e wid ctx [.str s] now1 = some (v1, e1) →
      invokeWrapper w e1 wid ctx [.str s] now2 = some (v2, e2) →
      v2 = v1 ∧ e2.calls = e1.calls) ∧
    (∀ args1 args2 now1 now2 v1 e1 v2 e2,
      wd.strictOf = false →
      args1.map (serializeVal w.ser) = args2.map (serializeVal w.ser) →
      notExpiredBy wd.ttlMs now1 now2 = true →
      hasCached w e wid ctx args1 now1 = false →
      invokeWrapper w e wid ctx args1 now1 = some (v1, e1) →
      invokeWrapper w e1 wid ctx args2 now2 = some (v2, e2) →
      v2 = v1 ∧ e2.calls = e1.calls) := by
  refine ⟨fun args => rfl, fun args => rfl, ?_, ?_, ?_⟩
  · intro r1 r2 now1 now2 v1 e1 v2 e2 hstrict hne hm1 hm2 h1 h2
    have hkne : generateKey w.ser [.ref r2] wd.strictOf ≠
        generateKey w.ser [.ref r1] wd.strictOf := by
      rw [hstrict]
      simp [generateKey]
      exact fun hh => hne hh.symm
    have hm2' : hasCached w e1 wid ctx [.ref r2] now2 = false := by
      rw [hasCached_after_invoke_ne w e wid wd stores0 ctx [.ref r1] [.ref r2]
        now1 now2 v1 e1 hwd hcv h1 hkne]
      exact hm2
    obtain ⟨_, hc1⟩ :=
      invoke_miss_char w e wid wd stores0 ctx [.ref r1] now1 hwd hcv hm1 v1 e1 h1
    have hwd1 : alGet e1.wrapperDefs wid = some wd := by
      rw [invokeWrapper_eq w e wid ctx [.ref r1] now1 wd stores0 hwd hcv] at h1
      by_cases hht : (TTLStore.hasAt ((alGet stores0 ctx).getD []) now1
          (generateKey w.ser [.ref r1] wd.strictOf)).1 <;>
        simp only [hht, if_true, if_false, Bool.false_eq_true,
          Option.some.injEq, Prod.mk.injEq] at h1 <;>
        rw [← h1.2] <;> exact hwd
    have hcv1 : ∃ stores1, alGet e1.cachedValues wid = some stores1 := by
      rw [invokeWrapper_eq w e wid ctx [.ref r1] now1 wd stores0 hwd hcv] at h1
      by_cases hht : (TTLStore.hasAt ((alGet stores0 ctx).getD []) now1
          (generateKey w.ser [.ref r1] wd.strictOf)).1 <;>
        simp only [hht, if_true, if_false, Bool.false_eq_true,
          Option.some.injEq, Prod.mk.injEq] at h1 <;>
        rw [← h1.2] <;> exact ⟨_, alGet_alSet_self _ _ _⟩
    obtain ⟨stores1, hcv1⟩ := hcv1
    obtain ⟨_, hc2⟩ :=
      invoke_miss_char w e1 wid wd stores1 ctx [.ref r2] now2 hwd1 hcv1 hm2'
        v2 e2 h2
    exact ⟨hc1, hc2⟩
  · intro s now1 now2 v1 e1 v2 e2 hstrict hfresh hm1 h1 h2
    obtain ⟨_, _, hv2, hc2⟩ :=
      invoke_miss_then_hit w e wid wd stores0 ctx [.str s] [.str s] now1 now2
        hwd hcv rfl hm1 hfresh v1 e1 v2 e2 h1 h2
    exact ⟨hv2, hc2⟩
  · intro args1 args2 now1 now2 v1 e1 v2 e2 hloose hser hfresh hm1 h1 h2
    have hkeys : generateKey w.ser args2 wd.strictOf =
        generateKey w.ser args1 wd.strictOf := by
      have hm : ∀ l : List Val,
          List.map (fun arg => Val.str (serializeVal w.ser arg)) l =
            List.map Val.str (List.map (serializeVal w.ser) l) := by
        intro l
        rw [List.map_map]
        rfl
      rw [hloose]
      simp only [generateKey, Bool.false_eq_true, if_false]
      rw [hm, hm, hser]
    obtain ⟨_, _, hv2, hc2⟩ :=
      invoke_miss_then_hit w e wid wd stores0 ctx args1 args2 now1 now2
        hwd hcv hkeys hm1 hfresh v1 e1 v2 e2 h1 h2
    exact ⟨hv2, hc2⟩

/-- Invoking the strict wrapper 100 with the two content-identical but
distinct references 40 and 41, one after the other. -/
def invR1 : Option (Val × Engine) := invokeWrapper w0 engA 100 none [.ref 40] 0

def valR1 : Val := (invR1.getD dflt).1

def engR1 : Engine := (invR1.getD dflt).2

def invR2 : Option (Val × Engine) :=
  invokeWrapper w0 engR1 100 none [.ref 41] 1

def valR2 : Val := (invR2.getD dflt).1

def engR2 : Engine := (invR2.getD dflt).2

/-- The engine after wrapping callable 0 loosely: wrapper 102. -/
def engL0 : Engine :=
  ((CachedFunction w0 engD false (.ref 0)
    (some ⟨some false, none⟩)).toOption.getD dflt).2

def invL1 : Option (Val × Engine) :=
  invokeWrapper w0 engL0 102 none [.ref 40] 0

def valL1 : Val := (invL1.getD dflt).1

def engL1 : Engine := (invL1.getD dflt).2

def invL2 : Option (Val × Engine) :=
  invokeWrapper w0 engL1 102 none [.ref 41] 1

def valL2 : Val := (invL2.getD dflt).1

def engL2 : Engine := (invL2.getD dflt).2

theorem c3_key_matching_modes_witness :
    (engR1.calls = 0 :: engA.calls ∧ engR2.calls = 0 :: engR1.calls) ∧
    (valL2 = valL1 ∧ engL2.calls = engL1.calls) :=
  ⟨(c3_key_matching_modes w0 engA 100 ⟨0, none⟩ [] none (by decide)
      (by decide)).2.2.1 40 41 0 1 valR1 engR1 valR2 engR2 (by decide) (by decide)
      (by decide) (by decide) (by decide) (by decide),
   (c3_key_matching_modes w0 engL0 102 ⟨0, some ⟨some false, none⟩⟩ [] none
      (by decide) (by decide)).2.2.2.2 [.ref 40] [.ref 41] 0 1 valL1 engL1
      valL2 engL2 (by decide) (by decide) (by decide) (by decide) (by decide)
      (by decide)⟩

/-- C4: TTL expiry is never-stale and lazy.  At the store level: a `set`
with a positive ttl records the absolute deadline now + ttl; any read
(`has`/`get`) strictly before the deadline is a hit that leaves the
store unchanged; any read at or after the deadline answers as if the
entry does not exist and removes the stale entry as a side effect; an
entry stored with no ttl is a hit at every later time until cleared.  At
the engine level, with a ttl-configured wrapper: after a miss at `now1`,
an invocation before `now1 + ttl` returns the cached value without
running the body, and an invocation at or after `now1 + ttl` runs the
underlying callable afresh (the caller never observes a stale value). -/
theorem c4_ttl_expiry (w : World) :
    (∀ (s : TTLStore) (now : Nat) (k : List Val) (v : Val) (t : Nat),
      alGet (TTLStore.setAt s now k v (some t)) k = some ⟨v, some (now + t)⟩) ∧
    (∀ (s : TTLStore) (now : Nat) (k : List Val) (v : Val),
      alGet (TTLStore.setAt s now k v none) k = some ⟨v, none⟩) ∧
    (∀ (s : TTLStore) (k : List Val) (v : Val) (d now' : Nat),
      alGet s k = some ⟨v, some d⟩ → now' < d →
      TTLStore.hasAt s now' k = (true, s) ∧
      TTLStore.getAt s now' k = (some v, s)) ∧
    (∀ (s : TTLStore) (k : List Val) (v : Val) (d now' : Nat),
      alGet s k = some ⟨v, some d⟩ → d ≤ now' →
      TTLStore.hasAt s now' k = (false, alDel s k) ∧
      TTLStore.getAt s now' k = (none, alDel s k)) ∧
    (∀ (s : TTLStore) (k : List Val) (v : Val) (now' : Nat),
      alGet s k = some ⟨v, none⟩ →
      TTLStore.hasAt s now' k = (true, s) ∧
      TTLStore.getAt s now' k = (some v, s)) ∧
    (∀ (e : Engine) (wid : Nat) (wd : Wrapper)
      (stores0 : List (Ctx × TTLStore)) (ctx : Ctx) (args : List Val)
      (now1 now2 t : Nat) (v1 : Val) (e1 : Engine) (v2 : Val) (e2 : Engine),
      alGet e.wrapperDefs wid = some wd →
      alGet e.cachedValues wid = some stores0 →
      wd.ttlMs = some t →
      hasCached w e wid ctx args now1 = false →
      invokeWrapper w e wid ctx args now1 = some (v1, e1) →
      invokeWrapper w e1 wid ctx args now2 = some (v2, e2) →
      (now2 < now1 + t → v2 = v1 ∧ e2.calls = e1.calls) ∧
      (now1 + t ≤ now2 →
        e2.calls = wd.underlying :: e1.calls ∧
        v2 = w.impl wd.underlying ctx args)) := by
  refine ⟨?_, ?_, ?_, ?_, ?_, ?_⟩
  · intro s now k v t
    simp [TTLStore.setAt, alGet_alSet_self, Option.map]
  · intro s now k v
    simp [TTLStore.setAt, alGet_alSet_self, Option.map]
  · intro s k v d now' hlk hlt
    have hexp : entryExpired now' (some d) = false := by
      simp only [entryExpired, decide_eq_false_iff_not]
      omega
    constructor
    · rw [TTLStore.hasAt, hlk]
      simp [hexp]
    · rw [TTLStore.getAt, hlk]
      simp [hexp]
  · intro s k v d now' hlk hle
    have hexp : entryExpired now' (some d) = true := by
      simp only [entryExpired, decide_eq_true_eq]
      omega
    constructor
    · rw [TTLStore.hasAt, hlk]
      simp [hexp]
    · rw [TTLStore.getAt, hlk]
      simp [hexp]
  · intro s k v now' hlk
    constructor
    · rw [TTLStore.hasAt, hlk]
      simp [entryExpired]
    · rw [TTLStore.getAt, hlk]
      simp [entryExpired]
  · intro e wid wd stores0 ctx args now1 now2 t v1 e1 v2 e2 hwd hcv httl
      hmiss h1 h2
    have he1 := invoke_miss_engine w e wid wd stores0 ctx args now1 hwd hcv
      hmiss v1 e1 h1
    have hwd1 : alGet e1.wrapperDefs wid = some wd := by rw [he1]; exact hwd
    have hcv1 : alGet e1.cachedValues wid = some
        (alSet (ensureCtxStore stores0 ctx) ctx
          (TTLStore.setAt
            (TTLStore.hasAt ((alGet stores0 ctx).getD []) now1
              (generateKey w.ser args wd.strictOf)).2
            now1 (generateKey w.ser args wd.strictOf)
            (w.impl wd.underlying ctx args) wd.ttlMs)) := by
      rw [he1]
      exact alGet_alSet_self _ _ _
    constructor
    · intro hbefore
      have hfresh : notExpiredBy wd.ttlMs now1 now2 = true := by
        rw [httl]
        simpa [notExpiredBy] using hbefore
      obtain ⟨_, _, hv2, hc2⟩ :=
        invoke_miss_then_hit w e wid wd stores0 ctx args args now1 now2 hwd
          hcv rfl hmiss hfresh v1 e1 v2 e2 h1 h2
      exact ⟨hv2, hc2⟩
    · intro hafter
      have hstale : hasCached w e1 wid ctx args now2 = false := by
        rw [hasCached_eq w e1 wid ctx args now2 wd _ hwd1 hcv1]
        rw [alGet_alSet_self]
        simp only [Option.getD_some]
        rw [TTLStore.hasAt, TTLStore.setAt, alGet_alSet_self]
        rw [httl]
        have hexp : entryExpired now2 (some (now1 + t)) = true := by
          simp only [entryExpired, decide_eq_true_eq]
          omega
        simp [hexp]
      obtain ⟨hv2, hc2⟩ :=
        invoke_miss_char w e1 wid wd _ ctx args now2 hwd1 hcv1 hstale v2 e2 h2
      exact ⟨hc2, hv2⟩

def invT1 : Option (Val × Engine) :=
  invokeWrapper w0 engT1 100 none [.num 2, .num 3] 0

def valT1 : Val := (invT1.getD dflt).1

def engT1b : Engine := (invT1.getD dflt).2

def invT2 : Option (Val × Engine) :=
  invokeWrapper w0 engT1b 100 none [.num 2, .num 3] 15

def valT2 : Val := (invT2.getD dflt).1

def engT2b : Engine := (invT2.getD dflt).2

theorem c4_ttl_expiry_witness :
    engT2b.calls = 0 :: engT1b.calls ∧
    valT2 = w0.impl 0 none [.num 2, .num 3] :=
  ((c4_ttl_expiry w0).2.2.2.2.2 engT1 100 ⟨0, some ⟨none, some 10⟩⟩ [] none
    [.num 2, .num 3] 0 15 10 valT1 engT1b valT2 engT2b (by decide) (by decide)
    (by decide) (by decide) (by decide) (by decide)).2 (by decide)

/-- C5: Per-context isolation.  Two invocations whose receivers are
identical share one store (the second is a hit); two invocations with
different receiver identities never share cached values even for
identical arguments (the second receiver's first call runs the body
again); and a clear targeted at one receiver object leaves every other
receiver's cached store, for every wrapper, unchanged. -/
theorem c5_context_isolation
    (w : World) (e : Engine) (wid : Nat) (wd : Wrapper)
    (stores0 : List (Ctx × TTLStore))
    (hwd : alGet e.wrapperDefs wid = some wd)
    (hcv : alGet e.cachedValues wid = some stores0) :
    (∀ ctx args now1 now2 v1 e1 v2 e2,
      hasCached w e wid ctx args now1 = false →
      notExpiredBy wd.ttlMs now1 now2 = true →
      invokeWrapper w e wid ctx args now1 = some (v1, e1) →
      invokeWrapper w e1 wid ctx args now2 = some (v2, e2) →
      v2 = v1 ∧ e2.calls = e1.calls) ∧
    (∀ ctx1 ctx2 args now1 now2 v1 e1 v2 e2,
      ctx2 ≠ ctx1 →
      hasCached w e wid ctx1 args now1 = false →
      hasCached w e wid ctx2 args now2 = false →
      invokeWrapper w e wid ctx1 args now1 = some (v1, e1) →
      invokeWrapper w e1 wid ctx2 args now2 = some (v2, e2) →
      e1.calls = wd.underlying :: e.calls ∧
      e2.calls = wd.underlying :: e1.calls) ∧
    (∀ (obj : Nat) (name : String) (arg3 : Option JArg) (e' : Engine),
      typeofIsObject w (.ref obj) = true →
      clearCache w e (.ref obj) (some (.v (.str name))) arg3 = .ok e' →
      ∀ wid' ctx', ctx' ≠ some obj →
        e'.storeFor wid' ctx' = e.storeFor wid' ctx') := by
  refine ⟨?_, ?_, ?_⟩
  · intro ctx args now1 now2 v1 e1 v2 e2 hmiss hfresh h1 h2
    obtain ⟨_, _, hv2, hc2⟩ :=
      invoke_miss_then_hit w e wid wd stores0 ctx args args now1 now2 hwd hcv
        rfl hmiss hfresh v1 e1 v2 e2 h1 h2
    exact ⟨hv2, hc2⟩
  · intro ctx1 ctx2 args now1 now2 v1 e1 v2 e2 hne hm1 hm2 h1 h2
    obtain ⟨_, hc1⟩ :=
      invoke_miss_char w e wid wd stores0 ctx1 args now1 hwd hcv hm1 v1 e1 h1
    have hm2' : hasCached w e1 wid ctx2 args now2 = false := by
      rw [hasCached_after_invoke_other_ctx w e wid wd stores0 ctx1 ctx2 args
        args now1 now2 v1 e1 hwd hcv h1 hne]
      exact hm2
    obtain ⟨hdefs, -, -, stores1, hcv1⟩ :=
      invoke_registration w e wid wd stores0 ctx1 args now1 v1 e1 hwd hcv h1
    have hwd1 : alGet e1.wrapperDefs wid = some wd := by rw [hdefs]; exact hwd
    obtain ⟨_, hc2⟩ :=
      invoke_miss_char w e1 wid wd stores1 ctx2 args now2 hwd1 hcv1 hm2'
        v2 e2 h2
    exact ⟨hc1, hc2⟩
  · intro obj name arg3 e' hobj hcl wid' ctx' hne
    simp only [clearCache, hobj, if_true] at hcl
    cases hm : w.member obj name with
    | none =>
      simp only [hm] at hcl
      cases hg : w.descGet obj name with
      | none => simp [hg] at hcl
      | some g =>
        simp only [hg] at hcl
        exact (clearFinish_frame w e g (some obj) (some (.arr [])) e' hcl).1
          wid' ctx' hne
    | some mv =>
      cases mv with
      | ref m =>
        simp only [hm] at hcl
        by_cases hfm : w.isFunc m
        · simp only [hfm, if_true] at hcl
          exact (clearFinish_frame w e (some (.ref m)) (some obj) arg3 e'
            hcl).1 wid' ctx' hne
        · simp only [hfm, Bool.false_eq_true, if_false] at hcl
          cases hg : w.descGet obj name with
          | none => simp [hg] at hcl
          | some g =>
            simp only [hg] at hcl
            exact (clearFinish_frame w e g (some obj) (some (.arr [])) e'
              hcl).1 wid' ctx' hne
      | undef =>
        simp only [hm] at hcl
        cases hg : w.descGet obj name with
        | none => simp [hg] at hcl
        | some g =>
          simp only [hg] at hcl
          exact (clearFinish_frame w e g (some obj) (some (.arr [])) e'
            hcl).1 wid' ctx' hne
      | null =>
        simp only [hm] at hcl
        cases hg : w.descGet obj name with
        | none => simp [hg] at hcl
        | some g =>
          simp only [hg] at hcl
          exact (clearFinish_frame w e g (some obj) (some (.arr [])) e'
            hcl).1 wid' ctx' hne
      | bool b =>
        simp only [hm] at hcl
        cases hg : w.descGet obj name with
        | none => simp [hg] at hcl
        | some g =>
          simp only [hg] at hcl
          exact (clearFinish_frame w e g (some obj) (some (.arr [])) e'
            hcl).1 wid' ctx' hne
      | num n =>
        simp only [hm] at hcl
        cases hg : w.descGet obj name with
        | none => simp [hg] at hcl
        | some g =>
          simp only [hg] at hcl
          exact (clearFinish_frame w e g (some obj) (some (.arr [])) e'
            hcl).1 wid' ctx' hne
      | str s =>
        simp only [hm] at hcl
        cases hg : w.descGet obj name with
        | none => simp [hg] at hcl
        | some g =>
          simp only [hg] at hcl
          exact (clearFinish_frame w e g (some obj) (some (.arr [])) e'
            hcl).1 wid' ctx' hne

/-- Invoking wrapper 100 with receiver 20 and then receiver 22. -/
def invX1 : Option (Val × Engine) :=
  invokeWrapper w0 engA 100 (some 20) [.num 1, .num 2] 0

def engX1 : Engine := (invX1.getD dflt).2

def invX2 : Option (Val × Engine) :=
  invokeWrapper w0 engX1 100 (some 22) [.num 1, .num 2] 1

def engX2 : Engine := (invX2.getD dflt).2

/-- The stores of wrapper 100 after the two receiver invocations. -/
def storesX2 : List (Ctx × TTLStore) :=
  (alGet engX2.cachedValues 100).getD []

/-- Clearing receiver 20's method cache by name. -/
def engX3 : Engine :=
  (clearCache w0 engX2 (.ref 20) (some (.v (.str "m"))) none).toOption.getD
    (Engine.empty 0)

theorem c5_context_isolation_witness :
    (engX1.calls = 0 :: engA.calls ∧ engX2.calls = 0 :: engX1.calls) ∧
    engX3.storeFor 100 (some 22) = engX2.storeFor 100 (some 22) :=
  ⟨(c5_context_isolation w0 engA 100 ⟨0, none⟩ [] (by decide)
      (by decide)).2.1 (some 20) (some 22) [.num 1, .num 2] 0 1
      (invX1.getD dflt).1 engX1 (invX2.getD dflt).1 engX2 (by decide)
      (by decide) (by decide) (by decide) (by decide),
   (c5_context_isolation w0 engX2 100 ⟨0, none⟩ storesX2 (by decide)
      (by decide)).2.2 20 "m" none engX3 (by decide) (by decide) 100 (some 22)
      (by decide)⟩

/-- C6: Targeted clear with frame property.  For a wrapped function
cleared directly (shape 2, no-context store): clearing with an argument
list removes exactly that argument list's entry — the key is no longer
live at any time, so the next invocation with it runs the underlying
callable afresh and (the callable being pure in the model) returns the
same result — while every other key of that store, every other context's
store and every other wrapper's stores are unchanged; clearing with no
argument list removes the whole no-context store. -/
theorem c6_targeted_clear
    (w : World) (e : Engine) (fid : Nat)
    (stores0 : List (Ctx × TTLStore)) (st : TTLStore) (wd : Wrapper)
    (hfn : w.isFunc fid = true)
    (hwd : alGet e.wrapperDefs fid = some wd)
    (hcv : alGet e.cachedValues fid = some stores0)
    (hst : alGet stores0 none = some st) :
    (∀ (as : List Val) (arg3 : Option JArg) (e' : Engine),
      clearCache w e (.ref fid) (some (.arr as)) arg3 = .ok e' →
      (∀ now, hasCached w e' fid none as now = false) ∧
      (∀ key', key' ≠ generateKey w.ser as wd.strictOf →
        ∀ st', e'.storeFor fid none = some st' →
          alGet st' key' = alGet st key') ∧
      (∀ ctx', ctx' ≠ none → e'.storeFor fid ctx' = e.storeFor fid ctx') ∧
      (∀ wid', wid' ≠ fid →
        alGet e'.cachedValues wid' = alGet e.cachedValues wid') ∧
      (∀ now v2 e2, invokeWrapper w e' fid none as now = some (v2, e2) →
        v2 = w.impl wd.underlying none as ∧
        e2.calls = wd.underlying :: e'.calls)) ∧
    (∀ e' : Engine, clearCache w e (.ref fid) none none = .ok e' →
      e'.storeFor fid none = none) := by
  have hobj : typeofIsObject w (.ref fid) = false := by
    simp [typeofIsObject, hfn]
  have hreg : (alGet e.cachedValues fid).isSome = true := by simp [hcv]
  constructor
  · intro as arg3 e' hcl
    simp only [clearCache, hobj, Bool.false_eq_true, if_false, hfn, if_true] at hcl
    simp only [clearFinish, hcv, Option.isSome_some, if_true, Option.getD_some,
      hst, hwd, Except.ok.injEq] at hcl
    have hwd' : alGet e'.wrapperDefs fid = some wd := by rw [← hcl]; exact hwd
    have hcv' : alGet e'.cachedValues fid =
        some (alSet stores0 none
          (alDel st (generateKey w.ser as wd.strictOf))) := by
      rw [← hcl]
      exact alGet_alSet_self _ _ _
    have hmiss' : ∀ now, hasCached w e' fid none as now = false := by
      intro now
      rw [hasCached_eq w e' fid none as now wd _ hwd' hcv']
      rw [alGet_alSet_self]
      simp only [Option.getD_some]
      rw [TTLStore.hasAt, alGet_alDel_self]
    refine ⟨hmiss', ?_, ?_, ?_, ?_⟩
    · intro key' hk st' hst'
      have hsf : e'.storeFor fid none =
          some (alDel st (generateKey w.ser as wd.strictOf)) := by
        simp [Engine.storeFor, hcv', alGet_alSet_self]
      rw [hsf] at hst'
      cases hst'
      exact alGet_alDel_ne _ _ _ hk
    · intro ctx' hne
      rw [← hcl]
      simp [Engine.storeFor, hcv, alGet_alSet_self,
        alGet_alSet_ne _ _ _ _ hne]
    · intro wid' hne
      rw [← hcl]
      simp [alGet_alSet_ne _ _ _ _ hne]
    · intro now v2 e2 h2
      exact invoke_miss_char w e' fid wd _ none as now hwd' hcv'
        (hmiss' now) v2 e2 h2
  · intro e' hcl
    simp only [clearCache, hobj, Bool.false_eq_true, if_false, hfn, if_true] at hcl
    simp only [clearFinish, hcv, Option.isSome_some, if_true, Option.getD_some,
      hst, Except.ok.injEq] at hcl
    subst hcl
    simp [Engine.storeFor, alGet_alSet_self, alGet_alDel_self]

/-- Caching a second key `(5, 5)` on top of the `(2, 2)` entry. -/
def invY : Option (Val × Engine) :=
  invokeWrapper w0 engB 100 none [.num 5, .num 5] 2

def engY : Engine := (invY.getD dflt).2

def storesY : List (Ctx × TTLStore) := (alGet engY.cachedValues 100).getD []

def stY : TTLStore := (alGet storesY none).getD []

/-- Clearing only the `(2, 2)` entry of wrapper 100. -/
def engY2 : Engine :=
  (clearCache w0 engY (.ref 100) (some (.arr [.num 2, .num 2]))
    none).toOption.getD (Engine.empty 0)

/-- Clearing all of wrapper 100's no-context entries. -/
def engY3 : Engine :=
  (clearCache w0 engY (.ref 100) none none).toOption.getD (Engine.empty 0)

/-- The no-context store of wrapper 100 after the targeted clear. -/
def stY2 : TTLStore := (engY2.storeFor 100 none).getD []

theorem c6_targeted_clear_witness :
    hasCached w0 engY2 100 none [.num 2, .num 2] 3 = false ∧
    alGet stY2 [.num 5, .num 5] = alGet stY [.num 5, .num 5] ∧
    engY3.storeFor 100 none = none :=
  ⟨((c6_targeted_clear w0 engY 100 storesY stY ⟨0, none⟩ (by decide)
      (by decide) (by decide) (by decide)).1 [.num 2, .num 2] none engY2
      (by decide)).1 3,
   ((c6_targeted_clear w0 engY 100 storesY stY ⟨0, none⟩ (by decide)
      (by decide) (by decide) (by decide)).1 [.num 2, .num 2] none engY2
      (by decide)).2.1 [.num 5, .num 5] (by decide) stY2 (by decide),
   (c6_targeted_clear w0 engY 100 storesY stY ⟨0, none⟩ (by decide)
      (by decide) (by decide) (by decide)).2 engY3 (by decide)⟩

/-- C8: Clear error contract.  `clearCache` fails with `NotCached` when
its function target was never wrapped, and when a named member resolves
to neither a plain callable (no member and no descriptor, or a
descriptor without a getter); it fails with `InvalidArgument` when an
explicit argument list is supplied that is not a sequence; and for a
properly wrapped target, clearing a context that has no store — or a
key that is absent from the store — succeeds silently and leaves every
observable piece of state (every wrapper's per-context lookups, the
registries, the call log) unchanged. -/
theorem c8_clear_error_contract (w : World) (e : Engine) :
    (∀ (f : Nat) (arg2 arg3 : Option JArg), w.isFunc f = true →
      alGet e.cachedValues f = none →
      clearCache w e (.ref f) arg2 arg3 = .error .NotCached) ∧
    (∀ (obj : Nat) (name : String) (arg3 : Option JArg),
      typeofIsObject w (.ref obj) = true →
      w.member obj name = none → w.descGet obj name = none →
      clearCache w e (.ref obj) (some (.v (.str name))) arg3 =
        .error .NotCached) ∧
    (∀ (obj : Nat) (name : String) (arg3 : Option JArg),
      typeofIsObject w (.ref obj) = true →
      w.member obj name = none → w.descGet obj name = some none →
      clearCache w e (.ref obj) (some (.v (.str name))) arg3 =
        .error .NotCached) ∧
    (∀ (f : Nat) (x : Val) (arg3 : Option JArg)
      (stores0 : List (Ctx × TTLStore)), w.isFunc f = true →
      alGet e.cachedValues f = some stores0 →
      clearCache w e (.ref f) (some (.v x)) arg3 =
        .error .InvalidArgument) ∧
    (∀ (f : Nat) (arg2 arg3 : Option JArg)
      (stores0 : List (Ctx × TTLStore)), w.isFunc f = true →
      alGet e.cachedValues f = some stores0 →
      alGet stores0 none = none →
      (arg2 = none ∨ ∃ as, arg2 = some (.arr as)) →
      clearCache w e (.ref f) arg2 arg3 = .ok e) ∧
    (∀ (f : Nat) (as : List Val) (arg3 : Option JArg)
      (stores0 : List (Ctx × TTLStore)) (st : TTLStore) (wd : Wrapper)
      (e' : Engine), w.isFunc f = true →
      alGet e.wrapperDefs f = some wd →
      alGet e.cachedValues f = some stores0 →
      alGet stores0 none = some st →
      alGet st (generateKey w.ser as wd.strictOf) = none →
      clearCache w e (.ref f) (some (.arr as)) arg3 = .ok e' →
      (∀ wid' ctx', e'.storeFor wid' ctx' = e.storeFor wid' ctx') ∧
      e'.wrapperDefs = e.wrapperDefs ∧
      e'.cachedFunctions = e.cachedFunctions ∧ e'.calls = e.calls) := by
  refine ⟨?_, ?_, ?_, ?_, ?_, ?_⟩
  · intro f arg2 arg3 hfn hnone
    have hobj : typeofIsObject w (.ref f) = false := by
      simp [typeofIsObject, hfn]
    simp only [clearCache, hobj, Bool.false_eq_true, if_false, hfn, if_true]
    simp only [clearFinish, hnone, Option.isSome_none, Bool.false_eq_true,
      if_false]
  · intro obj name arg3 hobj hmem hdesc
    simp [clearCache, hobj, hmem, hdesc]
  · intro obj name arg3 hobj hmem hdesc
    simp [clearCache, hobj, hmem, hdesc, clearFinish]
  · intro f x arg3 stores0 hfn hsome
    have hobj : typeofIsObject w (.ref f) = false := by
      simp [typeofIsObject, hfn]
    simp only [clearCache, hobj, Bool.false_eq_true, if_false, hfn, if_true]
    simp only [clearFinish, hsome, Option.isSome_some, if_true]
  · intro f arg2 arg3 stores0 hfn hsome hctx hshape
    have hobj : typeofIsObject w (.ref f) = false := by
      simp [typeofIsObject, hfn]
    simp only [clearCache, hobj, Bool.false_eq_true, if_false, hfn, if_true]
    rcases hshape with rfl | ⟨as, rfl⟩ <;>
      simp [clearFinish, hsome, hctx]
  · intro f as arg3 stores0 st wd e' hfn hwd hsome hctx hkey hcl
    have hobj : typeofIsObject w (.ref f) = false := by
      simp [typeofIsObject, hfn]
    simp only [clearCache, hobj, Bool.false_eq_true, if_false, hfn,
      if_true] at hcl
    simp only [clearFinish, hsome, Option.isSome_some, if_true,
      Option.getD_some, hctx, hwd, Except.ok.injEq] at hcl
    rw [alDel_id st _ hkey] at hcl
    refine ⟨?_, by rw [← hcl], by rw [← hcl], by rw [← hcl]⟩
    intro wid' ctx'
    rw [← hcl]
    by_cases hw : wid' = f
    · subst hw
      by_cases hc : ctx' = (none : Ctx)
      · subst hc
        simp [Engine.storeFor, hsome, alGet_alSet_self, hctx]
      · simp [Engine.storeFor, hsome, alGet_alSet_self,
          alGet_alSet_ne _ _ _ _ hc]
    · simp [Engine.storeFor, alGet_alSet_ne _ _ _ _ hw]

/-- The result of clearing an absent key `["zz"]` of wrapper 100. -/
def engZ : Engine :=
  (clearCache w0 engY (.ref 100) (some (.arr [.str "zz"]))
    none).toOption.getD (Engine.empty 0)

theorem c8_clear_error_contract_witness :
    clearCache w0 engA (.ref 5) none none = .error .NotCached ∧
    clearCache w0 engA (.ref 100) (some (.v (.str "oops"))) none =
      .error .InvalidArgument ∧
    clearCache w0 engA (.ref 100) none none = .ok engA ∧
    engZ.storeFor 100 none = engY.storeFor 100 none :=
  ⟨(c8_clear_error_contract w0 engA).1 5 none none (by decide) (by decide),
   (c8_clear_error_contract w0 engA).2.2.2.1 100 (.str "oops") none []
     (by decide) (by decide),
   (c8_clear_error_contract w0 engA).2.2.2.2.1 100 none none [] (by decide)
     (by decide) (by decide) (Or.inl rfl),
   ((c8_clear_error_contract w0 engY).2.2.2.2.2 100 [.str "zz"] none storesY
     stY ⟨0, none⟩ engZ (by decide) (by decide) (by decide) (by decide)
     (by decide) (by decide)).1 100 none⟩

/-- Whether `objectOrFunction[methodName]` is not a plain callable (the
negation of the `typeof === 'function'` test on line 144). -/
def memberNotCallable (w : World) (obj : Nat) (name : String) : Bool :=
  match w.member obj name with
  | some (.ref m) => !(w.isFunc m)
  | _ => true

/-- C10 (implicit): when `clearCache` is given an object and a member
name that does not resolve to a plain callable, the operation goes
through the property-descriptor getter and any third argument the
caller supplied is discarded and replaced by the empty argument list:
the result is the same for every supplied third argument and always
equals the clear of the getter's no-argument entry (so the
clear-everything-for-this-context shape and argument-specific shapes
are unreachable for getters).  When the getter resolves to a registered
wrapper whose store for this receiver exists, the operation deletes
exactly the empty-key entry of that receiver's store. -/
theorem c10_getter_clear_empty_args
    (w : World) (e : Engine) (obj : Nat) (name : String)
    (hobj : typeofIsObject w (.ref obj) = true)
    (hnc : memberNotCallable w obj name = true) :
    (∀ arg3 : Option JArg,
      clearCache w e (.ref obj) (some (.v (.str name))) arg3 =
        (match w.descGet obj name with
         | none => .error .NotCached
         | some g => clearFinish w e g (some obj) (some (.arr [])))) ∧
    (∀ (wid : Nat) (stores0 : List (Ctx × TTLStore)) (st : TTLStore)
      (wd : Wrapper) (arg3 : Option JArg) (e' : Engine),
      w.descGet obj name = some (some (.ref wid)) →
      alGet e.cachedValues wid = some stores0 →
      alGet e.wrapperDefs wid = some wd →
      alGet stores0 (some obj) = some st →
      clearCache w e (.ref obj) (some (.v (.str name))) arg3 = .ok e' →
      e'.storeFor wid (some obj) =
        some (alDel st (generateKey w.ser [] wd.strictOf))) := by
  have hshape : ∀ arg3 : Option JArg,
      clearCache w e (.ref obj) (some (.v (.str name))) arg3 =
        (match w.descGet obj name with
         | none => .error .NotCached
         | some g => clearFinish w e g (some obj) (some (.arr []))) := by
    intro arg3
    simp only [clearCache, hobj, if_true]
    cases hm : w.member obj name with
    | none => rfl
    | some mv =>
      cases mv with
      | ref m =>
        simp only [memberNotCallable, hm] at hnc
        simp only [Bool.not_eq_true'] at hnc
        simp only [hnc, Bool.false_eq_true, if_false]
      | undef => rfl
      | null => rfl
      | bool b => rfl
      | num n => rfl
      | str s => rfl
  refine ⟨hshape, ?_⟩
  intro wid stores0 st wd arg3 e' hg hcv hwd hst hcl
  rw [hshape arg3, hg] at hcl
  simp only [clearFinish, hcv, Option.isSome_some, if_true, Option.getD_some,
    hst, hwd, Except.ok.injEq] at hcl
  rw [← hcl]
  simp [Engine.storeFor, alGet_alSet_self]

/-- Caching the getter wrapper 100's no-argument entry for receiver 21
(the object whose property `g` resolves to wrapper 100). -/
def invG : Option (Val × Engine) := invokeWrapper w0 engA 100 (some 21) [] 0

def engG : Engine := (invG.getD dflt).2

/-- Clearing receiver 21's getter cache while passing a junk third
argument (a non-array value 7, which would be rejected for a plain
function target). -/
def engG2 : Engine :=
  (clearCache w0 engG (.ref 21) (some (.v (.str "g")))
    (some (.v (.num 7)))).toOption.getD (Engine.empty 0)

def storesG : List (Ctx × TTLStore) := (alGet engG.cachedValues 100).getD []

def stG : TTLStore := (alGet storesG (some 21)).getD []

theorem c10_getter_clear_empty_args_witness :
    clearCache w0 engG (.ref 21) (some (.v (.str "g"))) (some (.v (.num 7))) =
      (match w0.descGet 21 "g" with
       | none => .error .NotCached
       | some g => clearFinish w0 engG g (some 21) (some (.arr []))) ∧
    engG2.storeFor 100 (some 21) =
      some (alDel stG (generateKey w0.ser [] true)) :=
  ⟨(c10_getter_clear_empty_args w0 engG 21 "g" (by decide) (by decide)).1
     (some (.v (.num 7))),
   (c10_getter_clear_empty_args w0 engG 21 "g" (by decide) (by decide)).2
     100 storesG stG ⟨0, none⟩ (some (.v (.num 7))) engG2 (by decide)
     (by decide) (by decide) (by decide) (by decide)⟩

/-- C7: Construction-time validation.  `CachedFunction` fails with
`InvalidArgument` when the underlying argument is not callable (any
primitive, or a reference that is not a function and has no memoized
wrapper), and fails with `InvalidArgument` when a supplied ttl is not a
positive whole number (non-integer or non-positive), while absence of a
ttl is allowed (construction succeeds and registers a fresh wrapper);
invoking it via object-construction syntax (`new`) fails with a
`UsageError` for every input, including pairs for which a wrapper
already exists. -/
theorem c7_construction_validation (w : World) (e : Engine) :
    (∀ (v : Val) (o : Option Options),
      CachedFunction w e true v o = .error .UsageError) ∧
    (∀ (o : Option Options) (n : Int),
      CachedFunction w e false (.num n) o = .error .InvalidArgument) ∧
    (∀ (o : Option Options) (s : String),
      CachedFunction w e false (.str s) o = .error .InvalidArgument) ∧
    (∀ o, CachedFunction w e false .undef o = .error .InvalidArgument) ∧
    (∀ o, CachedFunction w e false .null o = .error .InvalidArgument) ∧
    (∀ o (b : Bool),
      CachedFunction w e false (.bool b) o = .error .InvalidArgument) ∧
    (∀ (f : Nat) (o : Option Options), w.isFunc f = false →
      alGet e.cachedFunctions (f, serializeOptions o) = none →
      CachedFunction w e false (.ref f) o = .error .InvalidArgument) ∧
    (∀ (f : Nat) (o : Options) (q : ℚ), o.ttl = some q →
      (q.den ≠ 1 ∨ q ≤ 0) →
      alGet e.cachedFunctions (f, serializeOptions (some o)) = none →
      CachedFunction w e false (.ref f) (some o) =
        .error .InvalidArgument) ∧
    (∀ (f : Nat) (o : Option Options), w.isFunc f = true →
      o.bind (·.ttl) = none →
      alGet e.cachedFunctions (f, serializeOptions o) = none →
      CachedFunction w e false (.ref f) o = .ok (.ref e.nextId,
        { e with
          nextId := e.nextId + 1
          cachedFunctions := alSet e.cachedFunctions
            (f, serializeOptions o) e.nextId
          wrapperDefs := alSet e.wrapperDefs e.nextId ⟨f, o⟩
          cachedValues := alSet e.cachedValues e.nextId [] })) := by
  refine ⟨?_, ?_, ?_, ?_, ?_, ?_, ?_, ?_, ?_⟩
  · intro v o
    rfl
  · intro o n
    simp [CachedFunction]
  · intro o s
    simp [CachedFunction]
  · intro o
    simp [CachedFunction]
  · intro o
    simp [CachedFunction]
  · intro o b
    simp [CachedFunction]
  · intro f o hfn hno
    simp [CachedFunction, hno, hfn]
  · intro f o q httl hbad hno
    have hv : validTtl o.ttl = false := by
      rw [httl]
      simp only [validTtl, Bool.and_eq_false_iff, decide_eq_false_iff_not]
      rcases hbad with h | h
      · exact Or.inl h
      · exact Or.inr (not_lt.mpr h)
    by_cases hfn : w.isFunc f
    · simp [CachedFunction, hno, hfn, hv]
    · simp [CachedFunction, hno, hfn]
  · intro f o hfn httl hno
    have hv : validTtl (o.bind (·.ttl)) = true := by
      rw [httl]
      rfl
    simp [CachedFunction, hno, hfn, hv]

theorem c7_construction_validation_witness :
    CachedFunction w0 engA true (.ref 0) none = .error .UsageError ∧
    CachedFunction w0 engA false (.str "nf") none = .error .InvalidArgument ∧
    CachedFunction w0 (Engine.empty 100) false (.ref 0)
      (some ⟨none, some (-1)⟩) = .error .InvalidArgument ∧
    CachedFunction w0 (Engine.empty 100) false (.ref 0)
      (some ⟨none, some (1/2)⟩) = .error .InvalidArgument :=
  ⟨(c7_construction_validation w0 engA).1 (.ref 0) none,
   (c7_construction_validation w0 engA).2.2.1 none "nf",
   (c7_construction_validation w0 (Engine.empty 100)).2.2.2.2.2.2.2.1 0
     ⟨none, some (-1)⟩ (-1) rfl (Or.inr (by norm_num)) (by decide),
   (c7_construction_validation w0 (Engine.empty 100)).2.2.2.2.2.2.2.1 0
     ⟨none, some (1/2)⟩ (1/2) rfl (Or.inl (by norm_num)) (by decide)⟩

end CachedFn
